import Mathlib

/-!
Verification of the SONG multipole addressing and quadratic-coupling layer.

Shallow embedding of the accessor macros of `src/include/perturbations2_macros.h`
and of the configuration-file interface of `src/include/parser.h`.

Numeric buffers (`y`, `dy`, `pvec_sources1`, ...) are modelled as total
functions `ℤ → ℚ`: a C array access with no bounds check is embedded as an
application of such a function, so "returns the buffer entry at offset i"
is `buf i`, and an access that the C code guards with a conditional zero
fallback is embedded with the same conditional.
-/

namespace Song

/-! ### Hierarchy Index Tables

The tables `ppt2->lm_array`, `ppt2->nlm_array` and `ppt2->lm_array_quad`
are built by setup code that is not part of the two headers, so their
layout is modelled from the spec. -/

/-- Modelled from the spec: the massless Hierarchy Index Table, i.e. the macro
`lm(l,m) = ppt2->lm_array[l][ppr2->index_m[m]]` whose builder
(`perturb2_indices_of_perturbs`) is missing from `src/`. The spec fixes a
contiguous layout: `lookup(0,0)=0`, the three `l=1` offsets are `{1,2,3}`,
five more cover `l=2`, and every block of `2l+1` offsets is contiguous and
disjoint from the others, giving the closed form `l*(l+1)+m`. -/
def lm (l m : ℤ) : ℤ := l * (l + 1) + m

/-- Modelled from the spec: the massive Hierarchy Index Table, i.e. the macro
`nlm(n,l,m) = ppt2->nlm_array[n][l][ppr2->index_m[m]]` whose builder is
missing from `src/`. The spec fixes radial order `n ∈ {0,1,2}` with `l_max`
fixed at `2`, hence radial blocks of `Σ_{l≤2}(2l+1) = 9` offsets each. -/
def nlm (n l m : ℤ) : ℤ := 9 * n + l * (l + 1) + m

/-- Modelled from the spec: the rotation-array index table, i.e. the macro
`lm_quad(l,m) = ppt2->lm_array_quad[l][m]` whose builder is missing from
`src/`. The rotation tables are indexed by `l ≥ 0` and `m ≥ 0` only, so a
contiguous triangular layout is used. -/
def lm_quad (l m : ℤ) : ℤ := l * (l + 1) / 2 + m

/-- The valid index set of a massless family truncated at `lmax`. -/
def lmValid (lmax l m : ℤ) : Prop := 0 ≤ l ∧ l ≤ lmax ∧ |m| ≤ l

/-- The valid index set of a massive family: `n ∈ {0,1,2}`, `l_max = 2`. -/
def nlmValid (n l m : ℤ) : Prop := 0 ≤ n ∧ n ≤ 2 ∧ 0 ≤ l ∧ l ≤ 2 ∧ |m| ≤ l

instance (lmax l m : ℤ) : Decidable (lmValid lmax l m) := by
  unfold lmValid; infer_instance

instance (n l m : ℤ) : Decidable (nlmValid n l m) := by
  unfold nlmValid; infer_instance

/-! ### Bounded multipole accessors (from the source)

The fields of `ppw2->pv` consulted by the accessor macros: the per-family
truncation orders and the base offsets of each family block in the `y`
and `dy` buffers. -/

structure PtVector where
  l_max_g : ℤ
  l_max_pol_g : ℤ
  l_max_ur : ℤ
  index_pt2_monopole_g : ℤ
  index_pt2_monopole_E : ℤ
  index_pt2_monopole_B : ℤ
  index_pt2_monopole_ur : ℤ
  index_pt2_monopole_b : ℤ
  index_pt2_monopole_cdm : ℤ

/-- The single field of `ppt2` consulted by the polarization accessors. -/
structure Ppt2Flags where
  has_polarization2 : Bool

/-- Macro `I(l,m)`: photon temperature multipole with conditional zero
fallback, in the condition order of the source. -/
def I (pv : PtVector) (y : ℤ → ℚ) (l m : ℤ) : ℚ :=
  if |m| > l ∨ l < 0 ∨ l > pv.l_max_g then 0
  else y (pv.index_pt2_monopole_g + lm l m)

/-- Macro `E(l,m)`: photon E-polarization multipole; zero also when
polarization is not requested. -/
def E (f : Ppt2Flags) (pv : PtVector) (y : ℤ → ℚ) (l m : ℤ) : ℚ :=
  if f.has_polarization2 = false ∨ |m| > l ∨ l < 0 ∨ l > pv.l_max_pol_g then 0
  else y (pv.index_pt2_monopole_E + lm l m)

/-- Macro `B(l,m)`: photon B-polarization multipole; zero also when
polarization is not requested. -/
def B (f : Ppt2Flags) (pv : PtVector) (y : ℤ → ℚ) (l m : ℤ) : ℚ :=
  if f.has_polarization2 = false ∨ |m| > l ∨ l < 0 ∨ l > pv.l_max_pol_g then 0
  else y (pv.index_pt2_monopole_B + lm l m)

/-- Macro `N(l,m)`: neutrino multipole. The source checks only `abs(m) > l`
and `l > l_max_ur`; there is no explicit `l < 0` test. -/
def N (pv : PtVector) (y : ℤ → ℚ) (l m : ℤ) : ℚ :=
  if |m| > l ∨ l > pv.l_max_ur then 0
  else y (pv.index_pt2_monopole_ur + lm l m)

/-- Macro `b(n,l,m)`: baryon beta-moment. The source checks only
`abs(m) > l` and `l < 0`; there is no truncation-order test. -/
def b (pv : PtVector) (y : ℤ → ℚ) (n l m : ℤ) : ℚ :=
  if |m| > l ∨ l < 0 then 0
  else y (pv.index_pt2_monopole_b + nlm n l m)

/-- Macro `cdm(n,l,m)`: cold-dark-matter beta-moment, same shape as `b`. -/
def cdm (pv : PtVector) (y : ℤ → ℚ) (n l m : ℤ) : ℚ :=
  if |m| > l ∨ l < 0 then 0
  else y (pv.index_pt2_monopole_cdm + nlm n l m)

/-! ### Derivative write accessors (from the source)

The macros `dI`, `dE`, `dB`, `dN`, `db`, `dcdm` are lvalues
`dy[base + lookup]` with no conditional: we embed each as the address it
denotes together with the buffer update a C assignment through it performs. -/

def dI_index (pv : PtVector) (l m : ℤ) : ℤ := pv.index_pt2_monopole_g + lm l m

def dE_index (pv : PtVector) (l m : ℤ) : ℤ := pv.index_pt2_monopole_E + lm l m

def dB_index (pv : PtVector) (l m : ℤ) : ℤ := pv.index_pt2_monopole_B + lm l m

def dN_index (pv : PtVector) (l m : ℤ) : ℤ := pv.index_pt2_monopole_ur + lm l m

def db_index (pv : PtVector) (n l m : ℤ) : ℤ := pv.index_pt2_monopole_b + nlm n l m

def dcdm_index (pv : PtVector) (n l m : ℤ) : ℤ := pv.index_pt2_monopole_cdm + nlm n l m

/-- The assignment `dI(l,m) = v` on buffer `dy`. -/
def dI_write (pv : PtVector) (dy : ℤ → ℚ) (l m : ℤ) (v : ℚ) : ℤ → ℚ :=
  Function.update dy (dI_index pv l m) v

/-- The assignment `dE(l,m) = v` on buffer `dy`. -/
def dE_write (pv : PtVector) (dy : ℤ → ℚ) (l m : ℤ) (v : ℚ) : ℤ → ℚ :=
  Function.update dy (dE_index pv l m) v

/-- The assignment `dB(l,m) = v` on buffer `dy`. -/
def dB_write (pv : PtVector) (dy : ℤ → ℚ) (l m : ℤ) (v : ℚ) : ℤ → ℚ :=
  Function.update dy (dB_index pv l m) v

/-- The assignment `dN(l,m) = v` on buffer `dy`. -/
def dN_write (pv : PtVector) (dy : ℤ → ℚ) (l m : ℤ) (v : ℚ) : ℤ → ℚ :=
  Function.update dy (dN_index pv l m) v

/-- The assignment `db(n,l,m) = v` on buffer `dy`. -/
def db_write (pv : PtVector) (dy : ℤ → ℚ) (n l m : ℤ) (v : ℚ) : ℤ → ℚ :=
  Function.update dy (db_index pv n l m) v

/-- The assignment `dcdm(n,l,m) = v` on buffer `dy`. -/
def dcdm_write (pv : PtVector) (dy : ℤ → ℚ) (n l m : ℤ) (v : ℚ) : ℤ → ℚ :=
  Function.update dy (dcdm_index pv n l m) v

/-! ### Frame Rotation Cache (accessors from the source)

The four flat tables `ppw2->rotation_1`, `ppw2->rotation_1_minus`,
`ppw2->rotation_2`, `ppw2->rotation_2_minus`, rebuilt once per triangle
geometry by code missing from `src/`; the accessor macros below are in the
source. -/

structure RotCache where
  rotation_1 : ℤ → ℚ
  rotation_1_minus : ℤ → ℚ
  rotation_2 : ℤ → ℚ
  rotation_2_minus : ℤ → ℚ

/-- Macro `rot_1(l,m)`: zero outside `l ≥ 0`, `|m| ≤ l`; the mirrored table
at `lm_quad(l,|m|)` for `m < 0`; the main table at `lm_quad(l,m)` otherwise. -/
def rot_1 (w : RotCache) (l m : ℤ) : ℚ :=
  if l < 0 ∨ |m| > l then 0
  else if m < 0 then w.rotation_1_minus (lm_quad l |m|)
  else w.rotation_1 (lm_quad l m)

/-- Macro `rot_2(l,m)`: same shape as `rot_1` on the leg-2 tables. -/
def rot_2 (w : RotCache) (l m : ℤ) : ℚ :=
  if l < 0 ∨ |m| > l then 0
  else if m < 0 then w.rotation_2_minus (lm_quad l |m|)
  else w.rotation_2 (lm_quad l m)

/-! ### First-order multipoles (from the source) -/

/-- The fields of `ppt` consulted by the tilde accessors: base offsets of the
first-order quadratic-source blocks. -/
structure PptIdx where
  index_qs_monopole_g : ℤ
  index_qs_monopole_E : ℤ
  index_qs_monopole_ur : ℤ

/-- Macro `I_1_tilde(l)`: first-order photon multipole along leg 1, zero for
`l < 0`. -/
def I_1_tilde (ppt : PptIdx) (pvec_sources1 : ℤ → ℚ) (l : ℤ) : ℚ :=
  if l < 0 then 0 else pvec_sources1 (ppt.index_qs_monopole_g + l)

/-- Macro `I_2_tilde(l)`: as `I_1_tilde` on the leg-2 source vector. -/
def I_2_tilde (ppt : PptIdx) (pvec_sources2 : ℤ → ℚ) (l : ℤ) : ℚ :=
  if l < 0 then 0 else pvec_sources2 (ppt.index_qs_monopole_g + l)

/-- Macro `E_1_tilde(l)`: zero for `l < 0` and whenever polarization is not
requested. -/
def E_1_tilde (f : Ppt2Flags) (ppt : PptIdx) (pvec_sources1 : ℤ → ℚ) (l : ℤ) : ℚ :=
  if l < 0 ∨ f.has_polarization2 = false then 0
  else pvec_sources1 (ppt.index_qs_monopole_E + l)

/-- Macro `E_2_tilde(l)`: as `E_1_tilde` on the leg-2 source vector. -/
def E_2_tilde (f : Ppt2Flags) (ppt : PptIdx) (pvec_sources2 : ℤ → ℚ) (l : ℤ) : ℚ :=
  if l < 0 ∨ f.has_polarization2 = false then 0
  else pvec_sources2 (ppt.index_qs_monopole_E + l)

/-- Macro `N_1_tilde(l)`: first-order neutrino multipole along leg 1. -/
def N_1_tilde (ppt : PptIdx) (pvec_sources1 : ℤ → ℚ) (l : ℤ) : ℚ :=
  if l < 0 then 0 else pvec_sources1 (ppt.index_qs_monopole_ur + l)

/-- Macro `N_2_tilde(l)`: as `N_1_tilde` on the leg-2 source vector. -/
def N_2_tilde (ppt : PptIdx) (pvec_sources2 : ℤ → ℚ) (l : ℤ) : ℚ :=
  if l < 0 then 0 else pvec_sources2 (ppt.index_qs_monopole_ur + l)

/-- Macro `I_1(l,m) = (rot_1(l,m))*(I_1_tilde(l))`. -/
def I_1 (ppt : PptIdx) (w : RotCache) (pvec_sources1 : ℤ → ℚ) (l m : ℤ) : ℚ :=
  rot_1 w l m * I_1_tilde ppt pvec_sources1 l

/-- Macro `I_2(l,m) = (rot_2(l,m))*(I_2_tilde(l))`. -/
def I_2 (ppt : PptIdx) (w : RotCache) (pvec_sources2 : ℤ → ℚ) (l m : ℤ) : ℚ :=
  rot_2 w l m * I_2_tilde ppt pvec_sources2 l

/-- Macro `E_1(l,m) = (rot_1(l,m))*(E_1_tilde(l))`. -/
def E_1 (f : Ppt2Flags) (ppt : PptIdx) (w : RotCache) (pvec_sources1 : ℤ → ℚ)
    (l m : ℤ) : ℚ :=
  rot_1 w l m * E_1_tilde f ppt pvec_sources1 l

/-- Macro `E_2(l,m) = (rot_2(l,m))*(E_2_tilde(l))`. -/
def E_2 (f : Ppt2Flags) (ppt : PptIdx) (w : RotCache) (pvec_sources2 : ℤ → ℚ)
    (l m : ℤ) : ℚ :=
  rot_2 w l m * E_2_tilde f ppt pvec_sources2 l

/-- Macro `N_1(l,m) = (rot_1(l,m))*(N_1_tilde(l))`. -/
def N_1 (ppt : PptIdx) (w : RotCache) (pvec_sources1 : ℤ → ℚ) (l m : ℤ) : ℚ :=
  rot_1 w l m * N_1_tilde ppt pvec_sources1 l

/-- Macro `N_2(l,m) = (rot_2(l,m))*(N_2_tilde(l))`. -/
def N_2 (ppt : PptIdx) (w : RotCache) (pvec_sources2 : ℤ → ℚ) (l m : ℤ) : ℚ :=
  rot_2 w l m * N_2_tilde ppt pvec_sources2 l

/-! ### Coupling Coefficient Store (accessors from the source)

The tables `ppt2->c_minus`, ..., `ppt2->d_zero` are two-dimensional: first
index `lm(l,m)`, second index `m-m1+1` with a physical extent of three
entries (`m1 ∈ {m-1, m, m+1}`). They are built once per run by code missing
from `src/`; we model each as a total function and state the addressing. -/

structure CouplingTables where
  c_minus : ℤ → ℤ → ℚ
  c_plus : ℤ → ℤ → ℚ
  d_minus : ℤ → ℤ → ℚ
  d_plus : ℤ → ℤ → ℚ
  d_zero : ℤ → ℤ → ℚ

/-- The second-dimension index `m - m1 + 1` common to all five coupling
accessor macros. -/
def couplingSecondIndex (m1 m : ℤ) : ℤ := m - m1 + 1

/-- The second dimension of each coupling table holds three entries; this is
the in-bounds predicate of the unchecked access. -/
def couplingIndexInBounds (m1 m : ℤ) : Prop :=
  0 ≤ couplingSecondIndex m1 m ∧ couplingSecondIndex m1 m < 3

instance (m1 m : ℤ) : Decidable (couplingIndexInBounds m1 m) := by
  unfold couplingIndexInBounds; infer_instance

/-- Macro `c_minus(l,m1,m) = ppt2->c_minus[lm(l,m)][m-m1+1]`. -/
def c_minus_acc (t : CouplingTables) (l m1 m : ℤ) : ℚ :=
  t.c_minus (lm l m) (couplingSecondIndex m1 m)

/-- Macro `c_plus(l,m1,m) = ppt2->c_plus[lm(l,m)][m-m1+1]`. -/
def c_plus_acc (t : CouplingTables) (l m1 m : ℤ) : ℚ :=
  t.c_plus (lm l m) (couplingSecondIndex m1 m)

/-- Macro `d_minus(l,m1,m) = ppt2->d_minus[lm(l,m)][m-m1+1]`. -/
def d_minus_acc (t : CouplingTables) (l m1 m : ℤ) : ℚ :=
  t.d_minus (lm l m) (couplingSecondIndex m1 m)

/-- Macro `d_plus(l,m1,m) = ppt2->d_plus[lm(l,m)][m-m1+1]`. -/
def d_plus_acc (t : CouplingTables) (l m1 m : ℤ) : ℚ :=
  t.d_plus (lm l m) (couplingSecondIndex m1 m)

/-- Macro `d_zero(l,m1,m) = ppt2->d_zero[lm(l,m)][m-m1+1]`. -/
def d_zero_acc (t : CouplingTables) (l m1 m : ℤ) : ℚ :=
  t.d_zero (lm l m) (couplingSecondIndex m1 m)

/-! ### Product Cache

The flat arrays `ppw2->c_minus_product_12`, ..., rebuilt together with the
Rotation Cache by code missing from `src/`. The builder writes one value
per valid `(l,m)` at flat offset `lm(l,m)`; we model it through the inverse
of the `lm` layout. The read accessors `c_minus_12(l,m)` etc. are in the
source. -/

/-- The degree component of the inverse of the `lm` layout. -/
def lmInvL (i : ℤ) : ℤ := (Nat.sqrt i.toNat : ℤ)

/-- The order component of the inverse of the `lm` layout. -/
def lmInvM (i : ℤ) : ℤ := i - lmInvL i * (lmInvL i + 1)

/-- Modelled from the spec: the Product Cache builder
(`perturb2_geometrical_corner`, missing from `src/`). For each `(l,m)` and
leg-pair it combines the coupling coefficient at azimuthal shift `m1 = m`
with the rotation factor of each leg, storing the product at flat offset
`lm(l,m)`. -/
def buildPairProduct (coupling : ℤ → ℤ → ℤ → ℚ) (rotA rotB : ℤ → ℤ → ℚ) : ℤ → ℚ :=
  fun i => coupling (lmInvL i) (lmInvM i) (lmInvM i)
    * rotA (lmInvL i) (lmInvM i) * rotB (lmInvL i) (lmInvM i)

/-- Modelled from the spec: the built `ppw2->c_minus_product_12` array. -/
def c_minus_product_12_built (t : CouplingTables) (w : RotCache) : ℤ → ℚ :=
  buildPairProduct (c_minus_acc t) (rot_1 w) (rot_2 w)

/-- Modelled from the spec: the built `ppw2->c_minus_product_21` array. -/
def c_minus_product_21_built (t : CouplingTables) (w : RotCache) : ℤ → ℚ :=
  buildPairProduct (c_minus_acc t) (rot_2 w) (rot_1 w)

/-- Modelled from the spec: the built `ppw2->c_minus_product_11` array. -/
def c_minus_product_11_built (t : CouplingTables) (w : RotCache) : ℤ → ℚ :=
  buildPairProduct (c_minus_acc t) (rot_1 w) (rot_1 w)

/-- Modelled from the spec: the built `ppw2->c_minus_product_22` array. -/
def c_minus_product_22_built (t : CouplingTables) (w : RotCache) : ℤ → ℚ :=
  buildPairProduct (c_minus_acc t) (rot_2 w) (rot_2 w)

/-- Modelled from the spec: the built `ppw2->c_plus_product_12` array. -/
def c_plus_product_12_built (t : CouplingTables) (w : RotCache) : ℤ → ℚ :=
  buildPairProduct (c_plus_acc t) (rot_1 w) (rot_2 w)

/-- Macro `c_minus_12(l,m) = ppw2->c_minus_product_12[lm(l,m)]`, applied to a
given product-cache array. -/
def c_minus_12 (tbl : ℤ → ℚ) (l m : ℤ) : ℚ := tbl (lm l m)

/-- Macro `c_minus_21(l,m)`, applied to a given product-cache array. -/
def c_minus_21 (tbl : ℤ → ℚ) (l m : ℤ) : ℚ := tbl (lm l m)

/-- Macro `c_minus_11(l,m)`, applied to a given product-cache array. -/
def c_minus_11 (tbl : ℤ → ℚ) (l m : ℤ) : ℚ := tbl (lm l m)

/-- Macro `c_minus_22(l,m)`, applied to a given product-cache array. -/
def c_minus_22 (tbl : ℤ → ℚ) (l m : ℤ) : ℚ := tbl (lm l m)

/-- Macro `c_plus_12(l,m)`, applied to a given product-cache array. -/
def c_plus_12 (tbl : ℤ → ℚ) (l m : ℤ) : ℚ := tbl (lm l m)

/-! ### Quadratic source coefficient (from the source) -/

/-- Macro `quad_coefficient`: the compile-time constant selecting the
second-order expansion convention `X ~ X^(1) + 1/2 X^(2)`. -/
def quad_coefficient : ℤ := 2

/-! ### Debug Selector (from the source) -/

/-- The three wavenumber indices of a triangle configuration, as stored in
`ppw2` (active) and `ppt2` (debug target). -/
structure KTriple where
  index_k1 : ℤ
  index_k2 : ℤ
  index_k3 : ℤ

/-- Macro `printf_k_debug(args...)`: emits the diagnostic record exactly when
the three active indices equal the three target indices; the emitted output
is modelled as the list of records written. -/
def printf_k_debug {R : Type} (active target : KTriple) (record : R) : List R :=
  if active.index_k1 = target.index_k1 ∧ active.index_k2 = target.index_k2 ∧
      active.index_k3 = target.index_k3 then [record]
  else []

/-! ### Configuration-file subsystem

Only the declarations of `src/include/parser.h` are in `src/`: the entry
record with its `read` and `overwritten` flags is from the source, the
operation bodies are modelled from the spec. The parallel arrays
`name`/`value`/`read`/`overwritten` of `struct file_content` are modelled
as one list of records. -/

structure FcEntry where
  name : String
  value : String
  read : Bool
  overwritten : Bool
deriving DecidableEq

/-- Modelled from the spec: C `atoi`-style conversion used by the typed
integer lookup, as a structural fold over the digit characters. -/
def atoi (s : String) : ℤ :=
  s.data.foldl (fun acc c => 10 * acc + ((c.toNat : ℤ) - ('0'.toNat : ℤ))) 0

/-- Modelled from the spec: `parser_overwrite_entry` (declared in
`src/include/parser.h`, body missing from `src/`): gives the named entry the
new value, marks it overwritten, and reports whether the name was found. -/
def parser_overwrite_entry (fc : List FcEntry) (nm newValue : String) :
    List FcEntry × Bool :=
  (fc.map fun e => if e.name = nm then { e with value := newValue, overwritten := true } else e,
   fc.any fun e => e.name == nm)

/-- Modelled from the spec: overlaying a base file with an override file that
may overwrite previously-read or unread entries, entry by entry. -/
def parser_overlay (base override : List FcEntry) : List FcEntry :=
  override.foldl (fun acc e => (parser_overwrite_entry acc e.name e.value).1) base

/-- Modelled from the spec: the typed lookup `parser_read_int` (declared in
`src/include/parser.h`, body missing from `src/`): reports found when the
name is present, returns the value of the entry converted to an integer, and
marks the entry as read. -/
def parser_read_int (fc : List FcEntry) (nm : String) :
    Option ℤ × List FcEntry :=
  ((fc.find? fun e => e.name == nm).map (fun e => atoi e.value),
   fc.map fun e => if e.name = nm then { e with read := true } else e)

/-- Modelled from the spec: the report of entries never consulted, i.e. those
whose `read` flag is still unset. -/
def parser_unread_names (fc : List FcEntry) : List String :=
  (fc.filter fun e => e.read == false).map fun e => e.name

/-! ### Concrete instances used by witnesses and the counterexample -/

/-- A concrete workspace with every truncation order equal to 2 and disjoint
family blocks. -/
def pvEx : PtVector := ⟨2, 2, 2, 0, 9, 18, 27, 36, 63⟩

/-- A concrete rotation cache with distinguishable table entries. -/
def rotEx : RotCache :=
  ⟨fun i => (i : ℚ) + 1, fun i => (i : ℚ) + 100,
   fun i => 2 * (i : ℚ) + 1, fun i => 2 * (i : ℚ) + 100⟩

/-- A concrete coupling store. -/
def couplingEx : CouplingTables :=
  ⟨fun i j => (i : ℚ) + 10 * (j : ℚ), fun i j => (i : ℚ) - (j : ℚ),
   fun i j => (i : ℚ) * (j : ℚ) + 1, fun i j => (i : ℚ) + (j : ℚ) + 2,
   fun i j => (i : ℚ) - 3 * (j : ℚ)⟩

/-- A concrete first-order index block. -/
def pptEx : PptIdx := ⟨0, 10, 20⟩

/-! ### Layout lemmas for the Hierarchy Index Tables -/

theorem sqrt_eq_of_sq_le_of_lt_sq {n a : ℕ} (h1 : a ^ 2 ≤ n) (h2 : n < (a + 1) ^ 2) :
    Nat.sqrt n = a :=
  Nat.le_antisymm (Nat.lt_succ_iff.mp (Nat.sqrt_lt'.mpr h2)) (Nat.le_sqrt'.mpr h1)

theorem lm_nonneg {l m : ℤ} (hl : 0 ≤ l) (hm : |m| ≤ l) : 0 ≤ lm l m := by
  obtain ⟨hm1, hm2⟩ := abs_le.mp hm
  unfold lm; nlinarith

theorem lm_lt {lmax l m : ℤ} (h : lmValid lmax l m) : lm l m < (lmax + 1) ^ 2 := by
  obtain ⟨hl, hlmax, hm⟩ := h
  obtain ⟨hm1, hm2⟩ := abs_le.mp hm
  unfold lm; nlinarith

theorem lmInvL_lm {l m : ℤ} (hl : 0 ≤ l) (hm : |m| ≤ l) : lmInvL (lm l m) = l := by
  obtain ⟨hm1, hm2⟩ := abs_le.mp hm
  have hi0 : 0 ≤ lm l m := lm_nonneg hl hm
  have hla : ((l.toNat : ℤ)) = l := Int.toNat_of_nonneg hl
  have hia : (((lm l m).toNat : ℤ)) = lm l m := Int.toNat_of_nonneg hi0
  have h1 : l.toNat ^ 2 ≤ (lm l m).toNat := by
    have h : ((l.toNat : ℤ)) ^ 2 ≤ (((lm l m).toNat : ℤ)) := by
      rw [hla, hia]; unfold lm; nlinarith
    exact_mod_cast h
  have h2 : (lm l m).toNat < (l.toNat + 1) ^ 2 := by
    have h : (((lm l m).toNat : ℤ)) < ((l.toNat : ℤ) + 1) ^ 2 := by
      rw [hla, hia]; unfold lm; nlinarith
    exact_mod_cast h
  unfold lmInvL
  rw [sqrt_eq_of_sq_le_of_lt_sq h1 h2, hla]

theorem lmInvM_lm {l m : ℤ} (hl : 0 ≤ l) (hm : |m| ≤ l) : lmInvM (lm l m) = m := by
  unfold lmInvM
  rw [lmInvL_lm hl hm]
  unfold lm; ring

theorem lm_inj {lmax l m l' m' : ℤ} (h : lmValid lmax l m) (h' : lmValid lmax l' m')
    (he : lm l m = lm l' m') : l = l' ∧ m = m' := by
  obtain ⟨hl, -, hm⟩ := h
  obtain ⟨hl', -, hm'⟩ := h'
  have hL : l = l' := by
    have := lmInvL_lm hl hm
    have := lmInvL_lm hl' hm'
    rw [he] at *
    omega
  refine ⟨hL, ?_⟩
  unfold lm at he
  subst hL
  linarith

theorem lm_surj_aux {lmax i : ℤ} (hL : 0 ≤ lmax) (h0 : 0 ≤ i)
    (h1 : i < (lmax + 1) ^ 2) :
    lmValid lmax (lmInvL i) (lmInvM i) ∧ lm (lmInvL i) (lmInvM i) = i := by
  have hia : ((i.toNat : ℤ)) = i := Int.toNat_of_nonneg h0
  have hsq : (Nat.sqrt i.toNat) ^ 2 ≤ i.toNat := Nat.sqrt_le' i.toNat
  have hsq2 : i.toNat < (Nat.sqrt i.toNat + 1) ^ 2 := Nat.lt_succ_sqrt' i.toNat
  have hinvl : lmInvL i = ((Nat.sqrt i.toNat : ℕ) : ℤ) := rfl
  set a : ℤ := lmInvL i with ha
  have ha0 : 0 ≤ a := by rw [hinvl]; positivity
  have hlow : a ^ 2 ≤ i := by
    rw [hinvl, ← hia]; exact_mod_cast hsq
  have hhigh : i < (a + 1) ^ 2 := by
    rw [hinvl, ← hia]; exact_mod_cast hsq2
  have hm : |lmInvM i| ≤ a := by
    rw [abs_le]; unfold lmInvM
    constructor <;> nlinarith
  have hal : a ≤ lmax := by
    by_contra hc
    push_neg at hc
    have : lmax + 1 ≤ a := by omega
    nlinarith
  refine ⟨⟨ha0, hal, hm⟩, ?_⟩
  unfold lm lmInvM
  ring

theorem lm_image_card (l : ℤ) :
    (Finset.image (fun m => lm l m) (Finset.Icc (-l) l)).card = (2 * l + 1).toNat := by
  rw [Finset.card_image_of_injOn (fun x _ y _ h => by unfold lm at h; omega)]
  rw [Int.card_Icc]
  congr 1
  omega

theorem nlm_eq (n l m : ℤ) : nlm n l m = 9 * n + lm l m := by
  unfold nlm lm; ring

theorem sum_odd_eq_sq (k : ℕ) :
    (∑ x in Finset.range k, (2 * (x : ℤ) + 1)) = (k : ℤ) ^ 2 := by
  induction k with
  | zero => simp
  | succ j ih =>
    rw [Finset.sum_range_succ, ih]
    push_cast
    ring

theorem lm_lt_nine {l m : ℤ} (h : lmValid 2 l m) : lm l m < 9 := by
  have := lm_lt h
  norm_num at this
  exact this

theorem nlm_inj {n l m n' l' m' : ℤ} (h : nlmValid n l m) (h' : nlmValid n' l' m')
    (he : nlm n l m = nlm n' l' m') : n = n' ∧ l = l' ∧ m = m' := by
  obtain ⟨hn0, hn2, hl0, hl2, hm⟩ := h
  obtain ⟨hn0', hn2', hl0', hl2', hm'⟩ := h'
  have hv : lmValid 2 l m := ⟨hl0, hl2, hm⟩
  have hv' : lmValid 2 l' m' := ⟨hl0', hl2', hm'⟩
  have hj0 := lm_nonneg hl0 hm
  have hj0' := lm_nonneg hl0' hm'
  have hj9 := lm_lt_nine hv
  have hj9' := lm_lt_nine hv'
  rw [nlm_eq, nlm_eq] at he
  have hn : n = n' := by omega
  have hlm : lm l m = lm l' m' := by omega
  obtain ⟨hL, hM⟩ := lm_inj hv hv' hlm
  exact ⟨hn, hL, hM⟩

theorem nlm_range {n l m : ℤ} (h : nlmValid n l m) : 0 ≤ nlm n l m ∧ nlm n l m < 27 := by
  obtain ⟨hn0, hn2, hl0, hl2, hm⟩ := h
  have hj0 := lm_nonneg hl0 hm
  have hj9 := lm_lt_nine ⟨hl0, hl2, hm⟩
  rw [nlm_eq]
  omega

theorem nlm_surj {i : ℤ} (h0 : 0 ≤ i) (h1 : i < 27) :
    ∃ n l m : ℤ, nlmValid n l m ∧ nlm n l m = i := by
  have hj0 : 0 ≤ i % 9 := Int.emod_nonneg i (by norm_num)
  have hj9 : i % 9 < 9 := Int.emod_lt_of_pos i (by norm_num)
  obtain ⟨⟨hl0, hl2, hm⟩, heq⟩ :=
    @lm_surj_aux 2 (i % 9) (by norm_num) hj0 (by norm_num; omega)
  refine ⟨i / 9, lmInvL (i % 9), lmInvM (i % 9), ⟨?_, ?_, hl0, hl2, hm⟩, ?_⟩
  · omega
  · omega
  · rw [nlm_eq, heq]
    omega

/-! ### Claim theorems -/

/-- C4: for every family the Hierarchy Index Table is a bijection from the
valid index set of the family onto `[0, count)`: the `lm` layout is injective on
`{(l,m) | 0 ≤ l ≤ l_max, |m| ≤ l}`, lands in `[0, (l_max+1)^2)`, attains
every value there, each degree `l` contributes exactly `2l+1` distinct
offsets, and `count = (l_max+1)^2 = Σ_{l ≤ l_max} (2l+1)`; analogously the
`nlm` layout of the massive families, over radial order `n ∈ {0,1,2}` with
`l_max` fixed at `2`, is a bijection onto `[0, 27)`. -/
theorem C4_index_table_bijection (lmax : ℤ) (hL : 0 ≤ lmax) :
    (∀ l m l' m' : ℤ, lmValid lmax l m → lmValid lmax l' m' →
        lm l m = lm l' m' → l = l' ∧ m = m')
  ∧ (∀ l m : ℤ, lmValid lmax l m → 0 ≤ lm l m ∧ lm l m < (lmax + 1) ^ 2)
  ∧ (∀ i : ℤ, 0 ≤ i → i < (lmax + 1) ^ 2 → ∃ l m : ℤ, lmValid lmax l m ∧ lm l m = i)
  ∧ (∀ l : ℤ, (Finset.image (fun m => lm l m) (Finset.Icc (-l) l)).card
        = (2 * l + 1).toNat)
  ∧ ((∑ x in Finset.range (lmax.toNat + 1), (2 * (x : ℤ) + 1)) = (lmax + 1) ^ 2)
  ∧ (∀ n l m n' l' m' : ℤ, nlmValid n l m → nlmValid n' l' m' →
        nlm n l m = nlm n' l' m' → n = n' ∧ l = l' ∧ m = m')
  ∧ (∀ n l m : ℤ, nlmValid n l m → 0 ≤ nlm n l m ∧ nlm n l m < 27)
  ∧ (∀ i : ℤ, 0 ≤ i → i < 27 → ∃ n l m : ℤ, nlmValid n l m ∧ nlm n l m = i) := by
  refine ⟨fun l m l' m' h h' he => lm_inj h h' he,
    fun l m h => ⟨lm_nonneg h.1 h.2.2, lm_lt h⟩,
    fun i h0 h1 => ⟨lmInvL i, lmInvM i, lm_surj_aux hL h0 h1⟩,
    lm_image_card,
    ?_,
    fun n l m n' l' m' h h' he => nlm_inj h h' he,
    fun n l m h => nlm_range h,
    fun i h0 h1 => nlm_surj h0 h1⟩
  rw [sum_odd_eq_sq]
  have : ((lmax.toNat + 1 : ℕ) : ℤ) = lmax + 1 := by
    push_cast [Int.toNat_of_nonneg hL]; ring
  rw [this]

/-- C4 witness: the bijection theorem instantiated at `l_max = 2`,
recovering `(l,m) = (2,-1)` as the unique preimage of flat offset `5` and
`(n,l,m)` with offset `13` in the massive table. -/
theorem C4_index_table_bijection_witness :
    (0 : ℤ) ≤ 2
  ∧ (∃ l m : ℤ, lmValid 2 l m ∧ lm l m = 5)
  ∧ (∃ n l m : ℤ, nlmValid n l m ∧ nlm n l m = 13) :=
  ⟨by norm_num,
   (C4_index_table_bijection 2 (by norm_num)).2.2.1 5 (by norm_num) (by norm_num),
   (C4_index_table_bijection 2 (by norm_num)).2.2.2.2.2.2.2 13 (by norm_num) (by norm_num)⟩

/-- C3: after the Rotation Cache and Product Cache are built for the current
triangle geometry, every leg-pair product-cache entry read back through the
source accessors equals the coupling coefficient at azimuthal shift `m1 = m`
times the rotation factors of its legs; in particular
`c_minus_12(l,m) = c_minus(l,m,m) · rot_1(l,m) · rot_2(l,m)` exactly, for
every valid `(l,m)` (hence for every `l ∈ {0,1,2}`). -/
theorem C3_product_cache_values (t : CouplingTables) (w : RotCache) (l m : ℤ)
    (hl : 0 ≤ l) (hm : |m| ≤ l) :
    c_minus_12 (c_minus_product_12_built t w) l m
      = c_minus_acc t l m m * rot_1 w l m * rot_2 w l m
  ∧ c_minus_21 (c_minus_product_21_built t w) l m
      = c_minus_acc t l m m * rot_2 w l m * rot_1 w l m
  ∧ c_minus_11 (c_minus_product_11_built t w) l m
      = c_minus_acc t l m m * rot_1 w l m * rot_1 w l m
  ∧ c_minus_22 (c_minus_product_22_built t w) l m
      = c_minus_acc t l m m * rot_2 w l m * rot_2 w l m
  ∧ c_plus_12 (c_plus_product_12_built t w) l m
      = c_plus_acc t l m m * rot_1 w l m * rot_2 w l m := by
  unfold c_minus_12 c_minus_21 c_minus_11 c_minus_22 c_plus_12
    c_minus_product_12_built c_minus_product_21_built c_minus_product_11_built
    c_minus_product_22_built c_plus_product_12_built buildPairProduct
  rw [lmInvL_lm hl hm, lmInvM_lm hl hm]
  exact ⟨rfl, rfl, rfl, rfl, rfl⟩

/-- C3 witness: the product-cache identity instantiated at the concrete
coupling store, rotation cache, and `(l,m) = (2,1)`. -/
theorem C3_product_cache_values_witness :
    (0 : ℤ) ≤ 2 ∧ |(1 : ℤ)| ≤ 2
  ∧ c_minus_12 (c_minus_product_12_built couplingEx rotEx) 2 1
      = c_minus_acc couplingEx 2 1 1 * rot_1 rotEx 2 1 * rot_2 rotEx 2 1 :=
  ⟨by norm_num, by norm_num,
   (C3_product_cache_values couplingEx rotEx 2 1 (by norm_num) (by norm_num)).1⟩

/-- C1 (amended): the bounded read accessors of the massless families
(photon temperature, photon E, photon B, neutrino) return `0` exactly when
`l < 0`, `|m| > l`, `l` exceeds the truncation order of the family, or — for the
E/B families — polarization is disabled, and otherwise return the
state-buffer entry at `base(family) + lookup(l,m)`. For the massive
families (baryon-beta, cdm-beta) the zero fallback covers only `l < 0` and
`|m| > l`: no truncation-order check is performed, and for every other
`(n,l,m)` — including `l` beyond the massive `l_max = 2` — the accessor
returns the buffer entry at `base(family) + lookup(n,l,m)`. -/
theorem C1_bounded_read_accessors (f : Ppt2Flags) (pv : PtVector)
    (y : ℤ → ℚ) (n l m : ℤ) :
    ((l < 0 ∨ |m| > l ∨ l > pv.l_max_g) → I pv y l m = 0)
  ∧ (¬(l < 0 ∨ |m| > l ∨ l > pv.l_max_g) →
      I pv y l m = y (pv.index_pt2_monopole_g + lm l m))
  ∧ ((l < 0 ∨ |m| > l ∨ l > pv.l_max_pol_g ∨ f.has_polarization2 = false) →
      E f pv y l m = 0 ∧ B f pv y l m = 0)
  ∧ (¬(l < 0 ∨ |m| > l ∨ l > pv.l_max_pol_g ∨ f.has_polarization2 = false) →
      E f pv y l m = y (pv.index_pt2_monopole_E + lm l m)
      ∧ B f pv y l m = y (pv.index_pt2_monopole_B + lm l m))
  ∧ ((l < 0 ∨ |m| > l ∨ l > pv.l_max_ur) → N pv y l m = 0)
  ∧ (¬(l < 0 ∨ |m| > l ∨ l > pv.l_max_ur) →
      N pv y l m = y (pv.index_pt2_monopole_ur + lm l m))
  ∧ ((l < 0 ∨ |m| > l) → b pv y n l m = 0 ∧ cdm pv y n l m = 0)
  ∧ (¬(l < 0 ∨ |m| > l) →
      b pv y n l m = y (pv.index_pt2_monopole_b + nlm n l m)
      ∧ cdm pv y n l m = y (pv.index_pt2_monopole_cdm + nlm n l m)) := by
  refine ⟨?_, ?_, ?_, ?_, ?_, ?_, ?_, ?_⟩
  · intro h
    unfold I
    rw [if_pos (by tauto)]
  · intro h
    unfold I
    rw [if_neg (by tauto)]
  · intro h
    have hc : f.has_polarization2 = false ∨ |m| > l ∨ l < 0 ∨ l > pv.l_max_pol_g := by
      tauto
    unfold E B
    rw [if_pos hc, if_pos hc]
    exact ⟨rfl, rfl⟩
  · intro h
    have hc : ¬(f.has_polarization2 = false ∨ |m| > l ∨ l < 0 ∨ l > pv.l_max_pol_g) := by
      tauto
    unfold E B
    rw [if_neg hc, if_neg hc]
    exact ⟨rfl, rfl⟩
  · intro h
    have hc : |m| > l ∨ l > pv.l_max_ur := by
      rcases h with h | h | h
      · exact Or.inl (by linarith [abs_nonneg m])
      · exact Or.inl h
      · exact Or.inr h
    unfold N
    rw [if_pos hc]
  · intro h
    unfold N
    rw [if_neg (by tauto)]
  · intro h
    have hc : |m| > l ∨ l < 0 := by tauto
    unfold b cdm
    rw [if_pos hc, if_pos hc]
    exact ⟨rfl, rfl⟩
  · intro h
    have hc : ¬(|m| > l ∨ l < 0) := by tauto
    unfold b cdm
    rw [if_neg hc, if_neg hc]
    exact ⟨rfl, rfl⟩

/-- C1 counterexample: the claim as stated is false for the baryon-beta
family. With every truncation order equal to `2`, the access `b(0,3,0)` has
`l = 3 > l_max` and the claim demands `0`, but on a buffer holding `1`
everywhere the accessor returns the buffer entry `1 ≠ 0`: the massive
accessors have no truncation-order check. -/
theorem C1_counterexample : b pvEx (fun _ => 1) 0 3 0 = 1 ∧ (1 : ℚ) ≠ 0 := by
  constructor
  · rfl
  · norm_num

/-- C1 witness: the amended accessor contract applied at the photon
temperature family with `l = 3` beyond `l_max_g = 2`. -/
theorem C1_bounded_read_accessors_witness :
    ((3 : ℤ) < 0 ∨ |(0 : ℤ)| > 3 ∨ (3 : ℤ) > pvEx.l_max_g)
  ∧ I pvEx (fun _ => 1) 3 0 = 0 :=
  ⟨by decide,
   (C1_bounded_read_accessors ⟨true⟩ pvEx (fun _ => 1) 0 3 0).1 (by decide)⟩

/-- C2: the rotation accessors return `0` whenever `l < 0` or `|m| > l`; for
`m ≥ 0` they return the main table of the leg at index `lm_quad(l,m)`; for
`m < 0` they return the mirrored table of the leg at index `lm_quad(l,|m|)`; so
for every valid `l` and `m > 0`, `rot(leg,l,-m)` is the mirrored-table
value at `(l,m)`. -/
theorem C2_rotation_accessor (w : RotCache) (l m : ℤ) :
    ((l < 0 ∨ |m| > l) → rot_1 w l m = 0 ∧ rot_2 w l m = 0)
  ∧ (0 ≤ m → m ≤ l → rot_1 w l m = w.rotation_1 (lm_quad l m)
      ∧ rot_2 w l m = w.rotation_2 (lm_quad l m))
  ∧ (m < 0 → |m| ≤ l → rot_1 w l m = w.rotation_1_minus (lm_quad l |m|)
      ∧ rot_2 w l m = w.rotation_2_minus (lm_quad l |m|))
  ∧ (0 < m → m ≤ l → rot_1 w l (-m) = w.rotation_1_minus (lm_quad l m)
      ∧ rot_2 w l (-m) = w.rotation_2_minus (lm_quad l m)) := by
  refine ⟨?_, ?_, ?_, ?_⟩
  · intro h
    unfold rot_1 rot_2
    rw [if_pos h, if_pos h]
    exact ⟨rfl, rfl⟩
  · intro h0 hl
    have hna : ¬(l < 0 ∨ |m| > l) := by
      push_neg
      exact ⟨by linarith, not_lt.mp (by simp [abs_le]; omega)⟩
    unfold rot_1 rot_2
    rw [if_neg hna, if_neg hna, if_neg (not_lt.mpr h0), if_neg (not_lt.mpr h0)]
    exact ⟨rfl, rfl⟩
  · intro hm0 hml
    have hna : ¬(l < 0 ∨ |m| > l) := by
      push_neg
      exact ⟨by linarith [abs_nonneg m], hml⟩
    unfold rot_1 rot_2
    rw [if_neg hna, if_neg hna, if_pos hm0, if_pos hm0]
    exact ⟨rfl, rfl⟩
  · intro h0 hl
    have habs : |(-m)| = m := by rw [abs_neg]; exact abs_of_pos h0
    have hna : ¬(l < 0 ∨ |(-m)| > l) := by
      push_neg
      rw [habs]
      exact ⟨by linarith, hl⟩
    have hneg : -m < 0 := by linarith
    unfold rot_1 rot_2
    rw [if_neg hna, if_neg hna, if_pos hneg, if_pos hneg, habs]
    exact ⟨rfl, rfl⟩

/-- C2 witness: the rotation accessor contract at `(l,m) = (2,1)` on a
concrete rotation cache, exercising the mirror rule. -/
theorem C2_rotation_accessor_witness :
    (0 : ℤ) < 1 ∧ (1 : ℤ) ≤ 2
  ∧ rot_1 rotEx 2 (-1) = rotEx.rotation_1_minus (lm_quad 2 1)
  ∧ rot_2 rotEx 2 (-1) = rotEx.rotation_2_minus (lm_quad 2 1) :=
  ⟨by norm_num, by norm_num,
   ((C2_rotation_accessor rotEx 2 1).2.2.2 (by norm_num) (by norm_num)).1,
   ((C2_rotation_accessor rotEx 2 1).2.2.2 (by norm_num) (by norm_num)).2⟩

/-- C5: the derivative write accessors perform no bounds check and have no
zero fallback: even at arguments where every bounded read accessor yields
`0`, the assignment through `dI`, `dE`, `dB`, `dN`, `db`, `dcdm` updates the
derivative buffer at the unconditional address `base(family) + lookup`. -/
theorem C5_write_accessors_unchecked (f : Ppt2Flags) (pv : PtVector)
    (y dy : ℤ → ℚ) (n l m : ℤ) (v : ℚ) (h : |m| > l ∨ l < 0) :
    I pv y l m = 0 ∧ E f pv y l m = 0 ∧ B f pv y l m = 0 ∧ N pv y l m = 0
  ∧ b pv y n l m = 0 ∧ cdm pv y n l m = 0
  ∧ dI_write pv dy l m v (pv.index_pt2_monopole_g + lm l m) = v
  ∧ dE_write pv dy l m v (pv.index_pt2_monopole_E + lm l m) = v
  ∧ dB_write pv dy l m v (pv.index_pt2_monopole_B + lm l m) = v
  ∧ dN_write pv dy l m v (pv.index_pt2_monopole_ur + lm l m) = v
  ∧ db_write pv dy n l m v (pv.index_pt2_monopole_b + nlm n l m) = v
  ∧ dcdm_write pv dy n l m v (pv.index_pt2_monopole_cdm + nlm n l m) = v := by
  have habs : |m| > l := by
    rcases h with h | h
    · exact h
    · linarith [abs_nonneg m]
  refine ⟨?_, ?_, ?_, ?_, ?_, ?_, ?_, ?_, ?_, ?_, ?_, ?_⟩
  · unfold I; rw [if_pos (Or.inl habs)]
  · unfold E; rw [if_pos (Or.inr (Or.inl habs))]
  · unfold B; rw [if_pos (Or.inr (Or.inl habs))]
  · unfold N; rw [if_pos (Or.inl habs)]
  · unfold b; rw [if_pos (Or.inl habs)]
  · unfold cdm; rw [if_pos (Or.inl habs)]
  · unfold dI_write dI_index; rw [Function.update_same]
  · unfold dE_write dE_index; rw [Function.update_same]
  · unfold dB_write dB_index; rw [Function.update_same]
  · unfold dN_write dN_index; rw [Function.update_same]
  · unfold db_write db_index; rw [Function.update_same]
  · unfold dcdm_write dcdm_index; rw [Function.update_same]

/-- C5 witness: the unchecked write contract at the out-of-range argument
`(l,m) = (-1,0)`, where every read accessor yields `0` yet the write lands
at the computed address. -/
theorem C5_write_accessors_unchecked_witness :
    (|(0 : ℤ)| > -1 ∨ (-1 : ℤ) < 0)
  ∧ dI_write pvEx (fun _ => 0) (-1) 0 5 (pvEx.index_pt2_monopole_g + lm (-1) 0) = 5 :=
  ⟨by decide,
   (C5_write_accessors_unchecked ⟨true⟩ pvEx (fun _ => 0) (fun _ => 0) 0 (-1) 0 5
     (by decide)).2.2.2.2.2.2.1⟩

/-- C6: the Debug Selector emits its diagnostic record exactly when the
three active wavenumber indices equal the three configured target indices,
and is a no-op (emits nothing) exactly on any mismatch; its output depends
on nothing but the two index triples and the record. -/
theorem C6_debug_selector {R : Type} (active target : KTriple) (record : R) :
    (printf_k_debug active target record = [record] ↔
      active.index_k1 = target.index_k1 ∧ active.index_k2 = target.index_k2 ∧
        active.index_k3 = target.index_k3)
  ∧ (printf_k_debug active target record = [] ↔
      ¬(active.index_k1 = target.index_k1 ∧ active.index_k2 = target.index_k2 ∧
        active.index_k3 = target.index_k3)) := by
  unfold printf_k_debug
  by_cases h : active.index_k1 = target.index_k1 ∧ active.index_k2 = target.index_k2 ∧
      active.index_k3 = target.index_k3
  · rw [if_pos h]
    simp [h]
  · rw [if_neg h]
    simp [h]

/-- C8: the scaling constant selecting the second-order expansion convention
`X ~ X^(1) + 1/2 X^(2)` is the compile-time constant `2`; the alternative
convention's value `1` is never the value of the constant. -/
theorem C8_quad_coefficient_is_two : quad_coefficient = 2 ∧ quad_coefficient ≠ 1 := by
  constructor
  · rfl
  · decide

/-- C9: every coupling-coefficient accessor indexes the second dimension of
its table at `m - m1 + 1` with no bounds check or zero fallback, and that
index lies inside the three-entry second dimension exactly when
`m - m1 ∈ {-1, 0, 1}`, i.e. `|m - m1| ≤ 1`: outside that set the access is
out of bounds. -/
theorem C9_coupling_access_precondition (t : CouplingTables) (l m1 m : ℤ) :
    c_minus_acc t l m1 m = t.c_minus (lm l m) (couplingSecondIndex m1 m)
  ∧ c_plus_acc t l m1 m = t.c_plus (lm l m) (couplingSecondIndex m1 m)
  ∧ d_minus_acc t l m1 m = t.d_minus (lm l m) (couplingSecondIndex m1 m)
  ∧ d_plus_acc t l m1 m = t.d_plus (lm l m) (couplingSecondIndex m1 m)
  ∧ d_zero_acc t l m1 m = t.d_zero (lm l m) (couplingSecondIndex m1 m)
  ∧ (couplingIndexInBounds m1 m ↔ |m - m1| ≤ 1)
  ∧ (couplingIndexInBounds m1 m ↔ m - m1 = -1 ∨ m - m1 = 0 ∨ m - m1 = 1) := by
  refine ⟨rfl, rfl, rfl, rfl, rfl, ?_, ?_⟩
  · unfold couplingIndexInBounds couplingSecondIndex
    rw [abs_le]
    omega
  · unfold couplingIndexInBounds couplingSecondIndex
    omega

/-- C10: the rotated first-order multipole accessors of both legs evaluate
to `0` whenever `l < 0` or `|m| > l`, because the rotation factor vanishes
there; and the E accessors evaluate to `0` for every `(l,m)` whenever
polarization is disabled, because the underlying tilde multipole is `0`. -/
theorem C10_rotated_first_order_zero (f : Ppt2Flags) (ppt : PptIdx) (w : RotCache)
    (s1 s2 : ℤ → ℚ) (l m : ℤ) :
    ((l < 0 ∨ |m| > l) →
      I_1 ppt w s1 l m = 0 ∧ I_2 ppt w s2 l m = 0
      ∧ E_1 f ppt w s1 l m = 0 ∧ E_2 f ppt w s2 l m = 0
      ∧ N_1 ppt w s1 l m = 0 ∧ N_2 ppt w s2 l m = 0)
  ∧ (f.has_polarization2 = false →
      E_1 f ppt w s1 l m = 0 ∧ E_2 f ppt w s2 l m = 0) := by
  constructor
  · intro h
    have h1 : rot_1 w l m = 0 := by unfold rot_1; rw [if_pos h]
    have h2 : rot_2 w l m = 0 := by unfold rot_2; rw [if_pos h]
    unfold I_1 I_2 E_1 E_2 N_1 N_2
    rw [h1, h2]
    simp
  · intro h
    have h1 : E_1_tilde f ppt s1 l = 0 := by unfold E_1_tilde; rw [if_pos (Or.inr h)]
    have h2 : E_2_tilde f ppt s2 l = 0 := by unfold E_2_tilde; rw [if_pos (Or.inr h)]
    unfold E_1 E_2
    rw [h1, h2]
    simp

/-- Matching on the name is invariant under maps that preserve the name. -/
theorem find?_name_map (l : List FcEntry) (nm : String) (F : FcEntry → FcEntry)
    (hp : ∀ e, (F e).name = e.name) :
    (l.map F).find? (fun e => e.name == nm) = (l.find? fun e => e.name == nm).map F := by
  rw [List.find?_map]
  have hpf : ((fun e : FcEntry => e.name == nm) ∘ F) = fun e : FcEntry => e.name == nm := by
    funext e
    simp [hp e]
  rw [hpf]

/-- C7: after overlaying a base file with an override file that sets a new
value for an already-present name, the typed lookup of that name reports
found and returns the value of the override, and the entry carries the
overwritten flag; a base-only entry with a different name that is never
looked up survives the overlay and the lookup with its read flag unset and
is reported among the never-consulted entries. -/
theorem C7_overlay_and_lookup (base : List FcEntry) (ov e0 e2 : FcEntry) (nm : String)
    (hfind : base.find? (fun e => e.name == nm) = some e0)
    (hov : ov.name = nm)
    (he2 : e2 ∈ base) (hne : e2.name ≠ nm) (hr : e2.read = false) :
    (parser_read_int (parser_overlay base [ov]) nm).1 = some (atoi ov.value)
  ∧ (parser_overlay base [ov]).find? (fun e => e.name == nm)
      = some { e0 with value := ov.value, overwritten := true }
  ∧ e2 ∈ (parser_read_int (parser_overlay base [ov]) nm).2
  ∧ e2.name ∈ parser_unread_names ((parser_read_int (parser_overlay base [ov]) nm).2) := by
  have he0name : e0.name = nm := by simpa using List.find?_some hfind
  have hfc1 : parser_overlay base [ov]
      = base.map fun e =>
          if e.name = nm then { e with value := ov.value, overwritten := true } else e := by
    simp [parser_overlay, parser_overwrite_entry, hov]
  have hfindF : (parser_overlay base [ov]).find? (fun e => e.name == nm)
      = some { e0 with value := ov.value, overwritten := true } := by
    rw [hfc1, find?_name_map _ _ _ (fun e => by by_cases h : e.name = nm <;> simp [h]),
      hfind]
    simp [he0name]
  have h1 : e2 ∈ base.map fun e =>
      if e.name = nm then { e with value := ov.value, overwritten := true } else e :=
    List.mem_map.mpr ⟨e2, he2, if_neg hne⟩
  have h3 : e2 ∈ (parser_read_int (parser_overlay base [ov]) nm).2 := by
    show e2 ∈ (parser_overlay base [ov]).map fun e =>
        if e.name = nm then { e with read := true } else e
    rw [hfc1]
    exact List.mem_map.mpr ⟨e2, h1, if_neg hne⟩
  refine ⟨?_, hfindF, h3, ?_⟩
  · show ((parser_overlay base [ov]).find? (fun e => e.name == nm)).map
        (fun e => atoi e.value) = some (atoi ov.value)
    rw [hfindF]
    rfl
  · unfold parser_unread_names
    exact List.mem_map.mpr ⟨e2, List.mem_filter.mpr ⟨h3, by simp [hr]⟩, rfl⟩

/-- Concrete base file for the overlay scenario: `truncation=4` plus a
parameter that is never looked up. -/
def baseEx : List FcEntry :=
  [⟨"truncation", "4", false, false⟩, ⟨"spare", "1", false, false⟩]

/-- Concrete override entry `truncation=6`. -/
def ovEx : FcEntry := ⟨"truncation", "6", false, false⟩

/-- C7 witness: the overlay scenario with base `truncation=4` overridden to
`6`: the lookup returns `6`, the entry is flagged overwritten, and the
untouched `spare` entry is reported unread. -/
theorem C7_overlay_and_lookup_witness :
    baseEx.find? (fun e => e.name == "truncation")
      = some ⟨"truncation", "4", false, false⟩
  ∧ ovEx.name = "truncation"
  ∧ (⟨"spare", "1", false, false⟩ : FcEntry) ∈ baseEx
  ∧ (⟨"spare", "1", false, false⟩ : FcEntry).name ≠ "truncation"
  ∧ (parser_read_int (parser_overlay baseEx [ovEx]) "truncation").1 = some (atoi "6")
  ∧ (parser_overlay baseEx [ovEx]).find? (fun e => e.name == "truncation")
      = some ⟨"truncation", "6", false, true⟩
  ∧ (⟨"spare", "1", false, false⟩ : FcEntry).name
      ∈ parser_unread_names ((parser_read_int (parser_overlay baseEx [ovEx]) "truncation").2) := by
  have h := C7_overlay_and_lookup baseEx ovEx ⟨"truncation", "4", false, false⟩
    ⟨"spare", "1", false, false⟩ "truncation" (by decide) rfl (by decide) (by decide) rfl
  exact ⟨by decide, rfl, by decide, by decide, h.1, h.2.1, h.2.2.2⟩

/-- C10 witness: the rotated accessors at `(l,m) = (1,2)` (outside validity)
and the E accessor at `(0,0)` with polarization disabled. -/
theorem C10_rotated_first_order_zero_witness :
    ((1 : ℤ) < 0 ∨ |(2 : ℤ)| > 1)
  ∧ I_1 pptEx rotEx (fun _ => 3) 1 2 = 0
  ∧ E_1 ⟨false⟩ pptEx rotEx (fun _ => 3) 0 0 = 0 :=
  ⟨by decide,
   ((C10_rotated_first_order_zero ⟨false⟩ pptEx rotEx (fun _ => 3) (fun _ => 4) 1 2).1
     (by decide)).1,
   ((C10_rotated_first_order_zero ⟨false⟩ pptEx rotEx (fun _ => 3) (fun _ => 4) 0 0).2
     rfl).1⟩

end Song
